import Mathlib

/-!
# Bridges: the JSON bridge loader and executor (`main.go`)

A shallow embedding of `NewJSONBridges`, `JSON.Run` and `JSON.Opts`.

Collaborators that live outside `main.go` are parameters of the model:

* `bridge.Helper` (the inbound context) contributes `GetParam` and
  `HTTPCallWithOpts`;
* `openuri.Open`, `ioutil.ReadAll`, `json.Unmarshal`, the process environment
  and `bridge.NewAuth` are the fields of `World`;
* the carriers `V` (decoded JSON values that are not strings), `E` (errors made
  by collaborators), `A` (auth descriptors), `O` (call options other than
  `Auth` and `Query`) and `S` (opened streams) are type parameters.

`JSON.Run` has a pointer receiver, so the model returns the receiver as it is
after the call next to the results, and calls are chained by passing that
receiver on.
-/

namespace Bridges

/-! ## Data model -/

/-- A Go `interface{}` held in a query mapping: a string, or any other value. -/
inductive Value (V : Type) where
  | str (s : String)
  | other (v : V)
  deriving DecidableEq

/-- A Go `map[string]interface{}`, as the list of its entries. A Go map holds
each key once, which is `GoMap.WF`. -/
abbrev GoMap (V : Type) := List (String × Value V)

/-- The keys of a map. -/
def GoMap.keys {V : Type} (m : GoMap V) : List String := m.map Prod.fst

/-- The invariant of a Go map: no key occurs twice. -/
def GoMap.WF {V : Type} (m : GoMap V) : Prop := m.keys.Nodup

instance GoMap.decidableWF {V : Type} (m : GoMap V) : Decidable m.WF :=
  inferInstanceAs (Decidable m.keys.Nodup)

/-- Reading `m[k]`. -/
def GoMap.get? {V : Type} (m : GoMap V) (k : String) : Option (Value V) :=
  match m with
  | [] => none
  | (k1, v1) :: rest => if k1 = k then some v1 else GoMap.get? rest k

/-- The assignment `m[k] = v`: overwrites the entry of `k`, or adds one. -/
def GoMap.set {V : Type} (m : GoMap V) (k : String) (v : Value V) : GoMap V :=
  match m with
  | [] => [(k, v)]
  | (k1, v1) :: rest => if k1 = k then (k, v) :: rest else (k1, v1) :: GoMap.set rest k v

/-- Go's `error`: made here by `errors.New`, or handed over by a collaborator. -/
inductive GoError (E : Type) where
  | errorsNew (msg : String)
  | foreign (e : E)
  deriving DecidableEq

/-- The struct `BridgeCallAuth`; its field `Type` is `Type_` here, `Type` being reserved. -/
structure BridgeCallAuth where
  Type_ : String
  Key : String
  Env : String
  deriving DecidableEq

/-- The struct `bridge.CallOpts`: `main.go` reads and writes `Auth` and `Query`
only, the remaining fields are carried in `rest`. -/
structure CallOpts (V A O : Type) where
  Auth : A
  Query : GoMap V
  rest : O
  deriving DecidableEq

/-- The struct `Bridge`. -/
structure Bridge (V A O : Type) where
  Name : String
  Method : String
  URL : String
  Path : String
  Auth : BridgeCallAuth
  Opts : CallOpts V A O
  deriving DecidableEq

/-- The struct `JSON`. -/
structure JSON (V A O : Type) where
  bridge : Bridge V A O
  deriving DecidableEq

/-- The struct `bridge.Opts` as `JSON.Opts` fills it. -/
structure Opts where
  Name : String
  Path : String
  Lambda : Bool
  deriving DecidableEq

/-- The arguments of one `HTTPCallWithOpts` call; `obj` is the mapping behind the
pointer at the time of the call. -/
structure OutboundCall (V A O : Type) where
  method : String
  url : String
  obj : GoMap V
  opts : CallOpts V A O
  deriving DecidableEq

/-- The inbound context `*bridge.Helper`, as far as `main.go` uses it.
`HTTPCallWithOpts method url obj opts` gives the mapping behind `obj` after the
call, and the error. -/
structure Helper (V E A O : Type) where
  GetParam : String → String
  HTTPCallWithOpts : String → String → GoMap V → CallOpts V A O → GoMap V × Option (GoError E)

/-- What `JSON.Run` leaves behind: the receiver after the call, the outbound
calls it made in order, and its two results. -/
structure RunResult (V E A O : Type) where
  ja : JSON V A O
  calls : List (OutboundCall V A O)
  body : GoMap V
  err : Option (GoError E)

/-- What `NewJSONBridges` reaches outside the process for. -/
inductive Step where
  | openURI (uri : String)
  | readAll
  | unmarshal
  | getenv (name : String)
  deriving DecidableEq

/-- The surroundings of `NewJSONBridges`. -/
structure World (V E A O S : Type) where
  openuriOpen : String → Except (GoError E) S
  ioutilReadAll : S → Except (GoError E) (List UInt8)
  jsonUnmarshal : List UInt8 → Except (GoError E) (List (Bridge V A O))
  environ : String → Option String
  NewAuth : String → String → String → A

/-- What `NewJSONBridges` leaves behind: its two results (a nil slice is the
empty list) and the steps it took, in order. -/
structure LoadResult (V E A O : Type) where
  bridges : List (JSON V A O)
  err : Option (GoError E)
  steps : List Step

/-! ## Operations -/

/-- Go's `os.Getenv`: the value of the variable, empty when it is unset. -/
def osGetenv {V E A O S : Type} (w : World V E A O S) (name : String) : String :=
  (w.environ name).getD ""

/-- The body of the `for _, a := range bs` loop of `NewJSONBridges`, acting on
`js` and on the steps taken so far. -/
def loadStep {V E A O S : Type} (w : World V E A O S)
    (acc : List (JSON V A O) × List Step) (a : Bridge V A O) :
    List (JSON V A O) × List Step :=
  let a1 : Bridge V A O :=
    { a with Opts := { a.Opts with
        Auth := w.NewAuth a.Auth.Type_ a.Auth.Key (osGetenv w a.Auth.Env) } }
  (acc.1 ++ [{ bridge := a1 }], acc.2 ++ [Step.getenv a.Auth.Env])

/-- The function `NewJSONBridges`. -/
def NewJSONBridges {V E A O S : Type} (w : World V E A O S) (uri : String) :
    LoadResult V E A O :=
  if uri.utf8ByteSize = 0 then
    { bridges := [], err := some (GoError.errorsNew "Empty bridge URI given"), steps := [] }
  else
    match w.openuriOpen uri with
    | .error e => { bridges := [], err := some e, steps := [Step.openURI uri] }
    | .ok o =>
      match w.ioutilReadAll o with
      | .error e => { bridges := [], err := some e, steps := [Step.openURI uri, Step.readAll] }
      | .ok b =>
        match w.jsonUnmarshal b with
        | .error e =>
          { bridges := [], err := some e,
            steps := [Step.openURI uri, Step.readAll, Step.unmarshal] }
        | .ok bs =>
          let out := bs.foldl (loadStep w) ([], [Step.openURI uri, Step.readAll, Step.unmarshal])
          { bridges := out.1, err := none, steps := out.2 }

/-- Go's `fmt.Sprintf("%s", v)`: a string is printed as it is; what another
value prints as is the parameter `fmtOther`. -/
def sprintfS {V : Type} (fmtOther : V → String) : Value V → String
  | .str s => s
  | .other v => fmtOther v

/-- The body of the `for k, v := range ja.bridge.Opts.Query` loop of `JSON.Run`,
acting on `p`. -/
def resolveStep {V E A O : Type} (fmtOther : V → String) (h : Helper V E A O)
    (p : GoMap V) (kv : String × Value V) : GoMap V :=
  p.set kv.1 (Value.str (h.GetParam (sprintfS fmtOther kv.2)))

/-- The method `JSON.Run`. -/
def JSON.Run {V E A O : Type} (fmtOther : V → String) (ja : JSON V A O)
    (h : Helper V E A O) : RunResult V E A O :=
  let r : GoMap V := []
  let p : GoMap V := ja.bridge.Opts.Query.foldl (resolveStep fmtOther h) []
  let ja1 : JSON V A O :=
    { bridge := { ja.bridge with Opts := { ja.bridge.Opts with Query := p } } }
  let url : String :=
    if ja1.bridge.URL.utf8ByteSize = 0 then h.GetParam "url" else ja1.bridge.URL
  let out := h.HTTPCallWithOpts ja1.bridge.Method url r ja1.bridge.Opts
  { ja := ja1,
    calls := [{ method := ja1.bridge.Method, url := url, obj := r, opts := ja1.bridge.Opts }],
    body := out.1,
    err := out.2 }

/-- The method `JSON.Opts`. -/
def JSON.Opts {V A O : Type} (ja : JSON V A O) : Opts :=
  { Name := ja.bridge.Name, Path := ja.bridge.Path, Lambda := true }

/-! ## Example inputs -/

/-- Auth descriptors of the examples: a record of what `bridge.NewAuth` was given.
The examples hold an `Option ExAuth`, `none` being the nil descriptor a decoded
definition has before its auth is resolved. -/
structure ExAuth where
  authType : String
  key : String
  value : String
  deriving DecidableEq

/-- An inbound context with the given parameters whose outbound call answers
with one entry, the URL it was sent to, and no error. -/
def exHelper (params : String → String) : Helper Empty String (Option ExAuth) Unit :=
  { GetParam := params,
    HTTPCallWithOpts := fun _ url obj _ => (GoMap.set obj "target" (Value.str url), none) }

/-- An inbound context whose outbound call fails. -/
def exFailingHelper (params : String → String) : Helper Empty String (Option ExAuth) Unit :=
  { GetParam := params,
    HTTPCallWithOpts := fun _ _ obj _ => (obj, some (GoError.foreign "connection refused")) }

/-- Inbound parameters `search = cats`, `url = http://b`. -/
def paramsCats (k : String) : String :=
  if k = "search" then "cats" else if k = "url" then "http://b" else ""

/-- Inbound parameters `search = dogs`. -/
def paramsDogs (k : String) : String :=
  if k = "search" then "dogs" else ""

/-- A bridge without static URL and with the query template `q: search`. -/
def exBridge : Bridge Empty (Option ExAuth) Unit :=
  { Name := "search", Method := "GET", URL := "", Path := "/search",
    Auth := { Type_ := "header", Key := "X-Key", Env := "X" },
    Opts := { Auth := none, Query := [("q", Value.str "search")], rest := () } }

/-- The bridge `exBridge` with the static URL `http://a`. -/
def exStaticBridge : Bridge Empty (Option ExAuth) Unit :=
  { exBridge with URL := "http://a" }

/-- A process environment in which only `X` is set, to `secret`. -/
def exEnviron (name : String) : Option String :=
  if name = "X" then some "secret" else none

/-- A world around the loader: `bridges.json` decodes to `ds`, `broken.json`
does not parse, `unreadable.json` opens and cannot be read, and nothing else
opens. -/
def exWorld (ds : List (Bridge Empty (Option ExAuth) Unit)) :
    World Empty String (Option ExAuth) Unit String :=
  { openuriOpen := fun uri =>
      if uri = "bridges.json" ∨ uri = "broken.json" ∨ uri = "unreadable.json" then .ok uri
      else .error (GoError.foreign "no such file"),
    ioutilReadAll := fun o =>
      if o = "unreadable.json" then .error (GoError.foreign "read failed")
      else if o = "broken.json" then .ok [123]
      else .ok [91, 93],
    jsonUnmarshal := fun b =>
      if b = [123] then .error (GoError.foreign "unexpected end of JSON input") else .ok ds,
    environ := exEnviron,
    NewAuth := fun t k v => some { authType := t, key := k, value := v } }

/-- A second definition, named like `exBridge`. -/
def exTwin : Bridge Empty (Option ExAuth) Unit :=
  { exBridge with Method := "POST", URL := "http://a", Path := "/twin",
                  Auth := { Type_ := "param", Key := "token", Env := "UNSET" } }

/-- Inbound parameters that give every name back as its own value. -/
def paramsEcho (k : String) : String := k

/-- The bridge that loading `exBridge` in `exWorld` gives. -/
def exLoaded : JSON Empty (Option ExAuth) Unit :=
  { bridge := { exBridge with Opts := { exBridge.Opts with
      Auth := some { authType := "header", key := "X-Key", value := "secret" } } } }

/-- A definition like `exTwin` under a name of its own. -/
def exOther : Bridge Empty (Option ExAuth) Unit :=
  { exTwin with Name := "other" }

/-! ## Strings and maps -/

/-- Go's `len(s) == 0` holds of the empty string only. -/
theorem utf8ByteSize_eq_zero_iff (s : String) : s.utf8ByteSize = 0 ↔ s = "" := by
  rcases s with ⟨l⟩
  cases l with
  | nil => exact ⟨fun _ => rfl, fun _ => rfl⟩
  | cons c cs =>
    constructor
    · intro h
      have hc := Char.utf8Size_pos c
      simp only [String.utf8ByteSize, String.utf8ByteSize.go] at h
      omega
    · intro h
      exact absurd h (by simp [String.ext_iff])

/-- Assigning to a key the map does not hold appends an entry. -/
theorem GoMap.set_of_not_mem {V : Type} (m : GoMap V) (k : String) (v : Value V)
    (hk : k ∉ m.keys) : m.set k v = m ++ [(k, v)] := by
  induction m with
  | nil => rfl
  | cons kv rest ih =>
    obtain ⟨k1, v1⟩ := kv
    simp only [GoMap.keys, List.map_cons, List.mem_cons, not_or] at hk
    have hne : ¬ k1 = k := fun h => hk.1 h.symm
    simp only [GoMap.set, if_neg hne, List.cons_append]
    rw [ih hk.2]

/-- Reading a key of a mapped map. -/
theorem GoMap.get?_map {V : Type} (g : Value V → Value V) (m : GoMap V) (k : String) :
    GoMap.get? (m.map (fun kv => (kv.1, g kv.2))) k = (GoMap.get? m k).map g := by
  induction m with
  | nil => rfl
  | cons kv rest ih =>
    obtain ⟨k1, v1⟩ := kv
    by_cases hk : k1 = k
    · simp [GoMap.get?, hk]
    · simp only [List.map_cons, GoMap.get?, if_neg hk]
      exact ih

/-- Reading the key of an entry of a well-formed map gives that entry. -/
theorem GoMap.get?_of_mem {V : Type} (m : GoMap V) (hwf : m.WF) (k : String) (v : Value V)
    (hmem : (k, v) ∈ m) : GoMap.get? m k = some v := by
  induction m with
  | nil => cases hmem
  | cons kv rest ih =>
    obtain ⟨k1, v1⟩ := kv
    simp only [GoMap.WF, GoMap.keys, List.map_cons, List.nodup_cons] at hwf
    rcases List.mem_cons.mp hmem with heq | hrest
    · cases heq
      simp [GoMap.get?]
    · have hne : ¬ k1 = k := by
        intro h
        subst h
        exact hwf.1 (List.mem_map_of_mem Prod.fst hrest)
      simp only [GoMap.get?, if_neg hne]
      exact ih hwf.2 hrest

/-- The query loop of `JSON.Run`, started on `p` whose keys are not in `q`,
appends to `p` the entries of `q` with their values resolved. -/
theorem foldl_resolveStep {V E A O : Type} (fmtOther : V → String) (h : Helper V E A O)
    (q : GoMap V) (hwf : q.WF) (p : GoMap V) (hdisj : ∀ k ∈ q.keys, k ∉ p.keys) :
    q.foldl (resolveStep fmtOther h) p =
      p ++ q.map (fun kv => (kv.1, Value.str (h.GetParam (sprintfS fmtOther kv.2)))) := by
  induction q generalizing p with
  | nil => simp
  | cons kv rest ih =>
    obtain ⟨k1, v1⟩ := kv
    simp only [GoMap.WF, GoMap.keys, List.map_cons, List.nodup_cons] at hwf
    have hk1 : k1 ∉ GoMap.keys p := hdisj k1 (by simp [GoMap.keys])
    simp only [List.foldl_cons, resolveStep, List.map_cons]
    rw [GoMap.set_of_not_mem p k1 _ hk1, ih hwf.2]
    · simp
    · intro k hk
      simp only [GoMap.keys, List.map_append, List.map_cons, List.map_nil, List.mem_append,
        List.mem_singleton, not_or]
      refine ⟨hdisj k (by simp [GoMap.keys]; exact Or.inr (by simpa [GoMap.keys] using hk)), ?_⟩
      intro hkk
      subst hkk
      exact hwf.1 hk

/-- The query mapping `JSON.Run` hands to the outbound call, for a well-formed
template: the template with every value resolved. -/
theorem resolved_query {V E A O : Type} (fmtOther : V → String) (h : Helper V E A O)
    (q : GoMap V) (hwf : q.WF) :
    q.foldl (resolveStep fmtOther h) [] =
      q.map (fun kv => (kv.1, Value.str (h.GetParam (sprintfS fmtOther kv.2)))) := by
  rw [foldl_resolveStep fmtOther h q hwf [] (fun _ _ => by simp [GoMap.keys])]
  simp

/-- In a well-formed map, reading a key gives a value exactly when the map has
that entry. -/
theorem GoMap.get?_eq_some_iff {V : Type} (m : GoMap V) (hwf : m.WF) (k : String)
    (v : Value V) : GoMap.get? m k = some v ↔ (k, v) ∈ m := by
  refine ⟨?_, GoMap.get?_of_mem m hwf k v⟩
  induction m with
  | nil => intro hget; cases hget
  | cons kv rest ih =>
    obtain ⟨k1, v1⟩ := kv
    simp only [GoMap.WF, GoMap.keys, List.map_cons, List.nodup_cons] at hwf
    intro hget
    by_cases hk : k1 = k
    · simp only [GoMap.get?, if_pos hk, Option.some.injEq] at hget
      rw [hk, hget]
      exact List.mem_cons_self _ _
    · simp only [GoMap.get?, if_neg hk] at hget
      exact List.mem_cons_of_mem _ (ih hwf.2 hget)

/-- Reading a key does not depend on the order of the entries. -/
theorem GoMap.get?_perm {V : Type} (m1 m2 : GoMap V) (hp : m1.Perm m2) (hwf : m1.WF)
    (k : String) : GoMap.get? m1 k = GoMap.get? m2 k := by
  have hwf2 : m2.WF := (List.Perm.nodup_iff (hp.map Prod.fst)).mp hwf
  apply Option.ext
  intro v
  simp only [Option.mem_def]
  rw [GoMap.get?_eq_some_iff m1 hwf, GoMap.get?_eq_some_iff m2 hwf2]
  exact hp.mem_iff

/-- The query loop of `JSON.Run` gives the same readings in whichever order
`range` visits the entries of the template. -/
theorem resolved_query_order {V E A O : Type} (fmtOther : V → String) (h : Helper V E A O)
    (q q2 : GoMap V) (hp : q.Perm q2) (hwf : q.WF) (k : String) :
    GoMap.get? (q2.foldl (resolveStep fmtOther h) []) k =
      GoMap.get? (q.foldl (resolveStep fmtOther h) []) k := by
  have hwf2 : q2.WF := (List.Perm.nodup_iff (hp.map Prod.fst)).mp hwf
  rw [resolved_query fmtOther h q hwf, resolved_query fmtOther h q2 hwf2,
    GoMap.get?_map (fun v => Value.str (h.GetParam (sprintfS fmtOther v))),
    GoMap.get?_map (fun v => Value.str (h.GetParam (sprintfS fmtOther v))),
    GoMap.get?_perm q q2 hp hwf]

/-! ## The executor `JSON.Run` -/

/-- C2. Query template resolution of `JSON.Run` on a loaded bridge: the query
mapping handed to the single outbound call has the keys of the template, at the
key of every template entry whose value is a string it holds what `GetParam`
returns for that string (whatever that is, the empty string included), and the
error of `Run` is the error of that call, so resolution adds no failure. -/
theorem run_resolves_query_template {V E A O : Type} (fmtOther : V → String)
    (ja : JSON V A O) (h : Helper V E A O) (hwf : ja.bridge.Opts.Query.WF) :
    ∃ c, (ja.Run fmtOther h).calls = [c] ∧
      c.opts.Query.keys = ja.bridge.Opts.Query.keys ∧
      (∀ k, k ∈ c.opts.Query.keys ↔ k ∈ ja.bridge.Opts.Query.keys) ∧
      (∀ k s, (k, Value.str s) ∈ ja.bridge.Opts.Query →
        c.opts.Query.get? k = some (Value.str (h.GetParam s))) ∧
      (ja.Run fmtOther h).err = (h.HTTPCallWithOpts c.method c.url c.obj c.opts).2 := by
  refine ⟨_, rfl, ?_, ?_, ?_, rfl⟩
  · simp only [resolved_query fmtOther h _ hwf, GoMap.keys, List.map_map]
    rfl
  · intro k
    simp only [resolved_query fmtOther h _ hwf, GoMap.keys, List.map_map]
    exact Iff.rfl
  · intro k s hmem
    simp only [resolved_query fmtOther h _ hwf]
    rw [GoMap.get?_map (fun v => Value.str (h.GetParam (sprintfS fmtOther v))),
      GoMap.get?_of_mem _ hwf k _ hmem]
    rfl

/-- C2, witness: the template `q: search` with `GetParam("search") = "cats"`
resolves to `q: cats`. -/
theorem run_resolves_query_template_witness :
    GoMap.WF exBridge.Opts.Query ∧
    (∃ c, (JSON.Run Empty.elim { bridge := exBridge } (exHelper paramsCats)).calls = [c] ∧
      c.opts.Query.keys = exBridge.Opts.Query.keys ∧
      (∀ k, k ∈ c.opts.Query.keys ↔ k ∈ exBridge.Opts.Query.keys) ∧
      (∀ k s, (k, Value.str s) ∈ exBridge.Opts.Query →
        c.opts.Query.get? k = some (Value.str ((exHelper paramsCats).GetParam s))) ∧
      (JSON.Run Empty.elim { bridge := exBridge } (exHelper paramsCats)).err =
        ((exHelper paramsCats).HTTPCallWithOpts c.method c.url c.obj c.opts).2) ∧
    (JSON.Run Empty.elim { bridge := exBridge } (exHelper paramsCats)).calls.map
      (fun c => c.opts.Query) = [[("q", Value.str "cats")]] :=
  ⟨by decide,
   run_resolves_query_template Empty.elim { bridge := exBridge } (exHelper paramsCats)
     (by decide),
   by decide⟩

/-- What `JSON.Run` leaves in its receiver: the definition with the query
mapping of this call in the place of the template. -/
theorem run_receiver {V E A O : Type} (fmtOther : V → String) (ja : JSON V A O)
    (h : Helper V E A O) :
    (ja.Run fmtOther h).ja =
      { bridge := { ja.bridge with Opts := { ja.bridge.Opts with
          Query := ja.bridge.Opts.Query.foldl (resolveStep fmtOther h) [] } } } ∧
    (ja.Run fmtOther h).calls.map (fun c => c.opts) = [(ja.Run fmtOther h).ja.bridge.Opts] :=
  ⟨rfl, rfl⟩

/-- C1. `JSON.Run` on the bridge with template `q: search` and the inbound
parameter `search = cats`: the definition stored in the bridge afterwards holds
the mapping `q: cats` resolved for this call, not the declared template, so the
stored definition is not the one the bridge was loaded with. -/
theorem run_overwrites_query_template :
    exBridge.Opts.Query = [("q", Value.str "search")] ∧
    (JSON.Run Empty.elim { bridge := exBridge } (exHelper paramsCats)).ja.bridge.Opts.Query =
      [("q", Value.str "cats")] ∧
    (JSON.Run Empty.elim { bridge := exBridge } (exHelper paramsCats)).ja.bridge ≠ exBridge := by
  refine ⟨rfl, by decide, by decide⟩

/-- C3. Two calls of `JSON.Run` on one bridge with template `q: search`, the
first with `search = cats`, the second with `search = dogs`: the second call
sends `q` empty, the value of the inbound parameter `cats`, where a freshly
loaded bridge sends `q: dogs`; and after a first call with other parameters the
same second call sends `q: dogs`, so what it sends depends on the first call. -/
theorem run_second_call_uses_first_resolution :
    (JSON.Run Empty.elim
        (JSON.Run Empty.elim { bridge := exBridge } (exHelper paramsCats)).ja
        (exHelper paramsDogs)).calls.map (fun c => c.opts.Query) = [[("q", Value.str "")]] ∧
    (JSON.Run Empty.elim { bridge := exBridge } (exHelper paramsDogs)).calls.map
        (fun c => c.opts.Query) = [[("q", Value.str "dogs")]] ∧
    (JSON.Run Empty.elim
        (JSON.Run Empty.elim { bridge := exBridge } (exHelper paramsEcho)).ja
        (exHelper paramsDogs)).calls.map (fun c => c.opts.Query) = [[("q", Value.str "dogs")]] := by
  refine ⟨by decide, by decide, by decide⟩

/-- C4. Target URL selection of `JSON.Run`: the URL of the single outbound call
is the static URL of the definition when that is not empty, and otherwise what
`GetParam("url")` returns, empty or not; the error of `Run` is the error of
that call. -/
theorem run_target_url {V E A O : Type} (fmtOther : V → String) (ja : JSON V A O)
    (h : Helper V E A O) :
    ∃ c, (ja.Run fmtOther h).calls = [c] ∧
      c.url = (if ja.bridge.URL = "" then h.GetParam "url" else ja.bridge.URL) ∧
      (ja.Run fmtOther h).err = (h.HTTPCallWithOpts c.method c.url c.obj c.opts).2 := by
  refine ⟨_, rfl, ?_, rfl⟩
  by_cases hu : ja.bridge.URL = ""
  · have hb : ja.bridge.URL.utf8ByteSize = 0 := (utf8ByteSize_eq_zero_iff _).mpr hu
    simp only [if_pos hu, if_pos hb]
  · have hb : ¬ ja.bridge.URL.utf8ByteSize = 0 := fun hz =>
      hu ((utf8ByteSize_eq_zero_iff _).mp hz)
    simp only [if_neg hu, if_neg hb]

/-- The examples of target URL selection: the static URL `http://a` wins over an
inbound `url = http://b`; without a static URL the inbound `http://b` is the
target; without either the target is empty and `Run` reports no error. -/
theorem run_target_url_examples :
    (JSON.Run Empty.elim { bridge := exStaticBridge } (exHelper paramsCats)).calls.map
        (fun c => c.url) = ["http://a"] ∧
    (JSON.Run Empty.elim { bridge := exBridge } (exHelper paramsCats)).calls.map
        (fun c => c.url) = ["http://b"] ∧
    (JSON.Run Empty.elim { bridge := exBridge } (exHelper paramsDogs)).calls.map
        (fun c => c.url) = [""] ∧
    (JSON.Run Empty.elim { bridge := exBridge } (exHelper paramsDogs)).err = none := by
  refine ⟨by decide, by decide, by decide, by decide⟩

/-- C8. Error propagation of `JSON.Run`: it makes exactly one outbound call,
with the method of the definition and an empty response mapping; the error it
returns is the error of that call, nil exactly when that one is nil, and the
body it returns is the mapping that call left behind. -/
theorem run_propagates_call_result {V E A O : Type} (fmtOther : V → String)
    (ja : JSON V A O) (h : Helper V E A O) :
    (ja.Run fmtOther h).calls.length = 1 ∧
    ∃ c, (ja.Run fmtOther h).calls = [c] ∧
      c.method = ja.bridge.Method ∧
      c.obj = [] ∧
      (ja.Run fmtOther h).err = (h.HTTPCallWithOpts c.method c.url c.obj c.opts).2 ∧
      ((ja.Run fmtOther h).err = none ↔
        (h.HTTPCallWithOpts c.method c.url c.obj c.opts).2 = none) ∧
      (ja.Run fmtOther h).body = (h.HTTPCallWithOpts c.method c.url c.obj c.opts).1 :=
  ⟨rfl, _, rfl, rfl, rfl, rfl, Iff.rfl, rfl⟩

/-- The examples of error propagation: a failing call gives its error and the
empty mapping, a succeeding call gives no error and the mapping it filled. -/
theorem run_propagates_call_result_examples :
    (JSON.Run Empty.elim { bridge := exBridge } (exFailingHelper paramsCats)).err =
      some (GoError.foreign "connection refused") ∧
    (JSON.Run Empty.elim { bridge := exBridge } (exFailingHelper paramsCats)).body = [] ∧
    (JSON.Run Empty.elim { bridge := exBridge } (exHelper paramsCats)).err = none ∧
    (JSON.Run Empty.elim { bridge := exBridge } (exHelper paramsCats)).body =
      [("target", Value.str "http://b")] := by
  refine ⟨by decide, by decide, by decide, by decide⟩

/-! ## The loader `NewJSONBridges` -/

/-- The loop of `NewJSONBridges`, started on `acc`, appends one bridge and one
environment read per definition, in order. -/
theorem foldl_loadStep {V E A O S : Type} (w : World V E A O S) (ds : List (Bridge V A O))
    (acc : List (JSON V A O) × List Step) :
    ds.foldl (loadStep w) acc =
      (acc.1 ++ ds.map (fun a => { bridge := { a with Opts := { a.Opts with
          Auth := w.NewAuth a.Auth.Type_ a.Auth.Key (osGetenv w a.Auth.Env) } } }),
       acc.2 ++ ds.map (fun a => Step.getenv a.Auth.Env)) := by
  induction ds generalizing acc with
  | nil => simp
  | cons a rest ih =>
    rw [List.foldl_cons, ih]
    simp [loadStep]

/-- The results of `NewJSONBridges` when the source opens, reads and decodes. -/
theorem load_of_decoded {V E A O S : Type} (w : World V E A O S) (uri : String) (o : S)
    (b : List UInt8) (ds : List (Bridge V A O)) (huri : uri ≠ "")
    (ho : w.openuriOpen uri = .ok o) (hr : w.ioutilReadAll o = .ok b)
    (hd : w.jsonUnmarshal b = .ok ds) :
    (NewJSONBridges w uri).bridges =
      ds.map (fun a => { bridge := { a with Opts := { a.Opts with
          Auth := w.NewAuth a.Auth.Type_ a.Auth.Key (osGetenv w a.Auth.Env) } } }) ∧
    (NewJSONBridges w uri).err = none ∧
    (NewJSONBridges w uri).steps =
      [Step.openURI uri, Step.readAll, Step.unmarshal] ++
        ds.map (fun a => Step.getenv a.Auth.Env) := by
  have hb : ¬ uri.utf8ByteSize = 0 := fun hz => huri ((utf8ByteSize_eq_zero_iff _).mp hz)
  simp only [NewJSONBridges, if_neg hb, ho, hr, hd, foldl_loadStep]
  simp

/-- C5. `NewJSONBridges` on the empty URI, in every world: no bridges, the error
made by `errors.New("Empty bridge URI given")`, and no step taken, so nothing
was opened, read or parsed. -/
theorem load_empty_uri {V E A O S : Type} (w : World V E A O S) :
    (NewJSONBridges w "").bridges = [] ∧
    (NewJSONBridges w "").err = some (GoError.errorsNew "Empty bridge URI given") ∧
    (NewJSONBridges w "").steps = [] :=
  ⟨rfl, rfl, rfl⟩

/-- C6. One bridge per array element, in declaration order: when the URI is not
empty and its source opens, reads and decodes to `ds`, `NewJSONBridges` returns
no error and as many bridges as `ds` has definitions, the bridge at every
position wrapping the definition at that position (same name, method, URL,
path, auth declaration, query template and other options); for an empty `ds`
it returns no bridges and no error. -/
theorem load_one_bridge_per_definition {V E A O S : Type} (w : World V E A O S)
    (uri : String) (o : S) (b : List UInt8) (ds : List (Bridge V A O)) (huri : uri ≠ "")
    (ho : w.openuriOpen uri = .ok o) (hr : w.ioutilReadAll o = .ok b)
    (hd : w.jsonUnmarshal b = .ok ds) :
    (NewJSONBridges w uri).err = none ∧
    (NewJSONBridges w uri).bridges.length = ds.length ∧
    (∀ (i : Nat) (d : Bridge V A O), ds[i]? = some d →
      ∃ j : JSON V A O, (NewJSONBridges w uri).bridges[i]? = some j ∧
        j.bridge.Name = d.Name ∧ j.bridge.Method = d.Method ∧ j.bridge.URL = d.URL ∧
        j.bridge.Path = d.Path ∧ j.bridge.Auth = d.Auth ∧
        j.bridge.Opts.Query = d.Opts.Query ∧ j.bridge.Opts.rest = d.Opts.rest) ∧
    (ds = [] → (NewJSONBridges w uri).bridges = []) := by
  obtain ⟨hbs, herr, -⟩ := load_of_decoded w uri o b ds huri ho hr hd
  refine ⟨herr, by simp [hbs], ?_, ?_⟩
  · intro i d hi
    rw [hbs, List.getElem?_map, hi]
    exact ⟨_, rfl, rfl, rfl, rfl, rfl, rfl, rfl, rfl⟩
  · intro hnil
    simp [hbs, hnil]

/-- C6, witness: a document with two definitions gives two bridges. -/
theorem load_one_bridge_per_definition_witness :
    "bridges.json" ≠ "" ∧
    (exWorld [exBridge, exTwin]).openuriOpen "bridges.json" = .ok "bridges.json" ∧
    (exWorld [exBridge, exTwin]).ioutilReadAll "bridges.json" = .ok [91, 93] ∧
    (exWorld [exBridge, exTwin]).jsonUnmarshal [91, 93] = .ok [exBridge, exTwin] ∧
    (NewJSONBridges (exWorld [exBridge, exTwin]) "bridges.json").err = none ∧
    (NewJSONBridges (exWorld [exBridge, exTwin]) "bridges.json").bridges.length = 2 ∧
    (NewJSONBridges (exWorld [exBridge, exTwin]) "bridges.json").bridges.map
      (fun j => j.bridge.Path) = ["/search", "/twin"] := by
  have hl := load_one_bridge_per_definition (exWorld [exBridge, exTwin]) "bridges.json"
    "bridges.json" [91, 93] [exBridge, exTwin] (by decide) rfl rfl rfl
  exact ⟨by decide, rfl, rfl, rfl, hl.1, hl.2.1, by decide⟩

/-- The bridges `NewJSONBridges` returns are none, or one per definition that
`json.Unmarshal` decoded, each with its auth resolved. -/
theorem load_bridges_cases {V E A O S : Type} (w : World V E A O S) (uri : String) :
    (NewJSONBridges w uri).bridges = [] ∨
    ∃ ds : List (Bridge V A O), (NewJSONBridges w uri).bridges =
      ds.map (fun a => { bridge := { a with Opts := { a.Opts with
          Auth := w.NewAuth a.Auth.Type_ a.Auth.Key (osGetenv w a.Auth.Env) } } }) := by
  by_cases hu : uri.utf8ByteSize = 0
  · left
    simp [NewJSONBridges, hu]
  · have hne : uri ≠ "" := fun he => hu ((utf8ByteSize_eq_zero_iff _).mpr he)
    cases ho : w.openuriOpen uri with
    | error e =>
      left
      simp [NewJSONBridges, hu, ho]
    | ok o =>
      cases hr : w.ioutilReadAll o with
      | error e =>
        left
        simp [NewJSONBridges, hu, ho, hr]
      | ok b =>
        cases hd : w.jsonUnmarshal b with
        | error e =>
          left
          simp [NewJSONBridges, hu, ho, hr, hd]
        | ok ds => exact Or.inr ⟨ds, (load_of_decoded w uri o b ds hne ho hr hd).1⟩

/-- The error of `NewJSONBridges` does not depend on the process environment. -/
theorem load_err_environ {V E A O S : Type} (w : World V E A O S) (uri : String)
    (env2 : String → Option String) :
    (NewJSONBridges { w with environ := env2 } uri).err = (NewJSONBridges w uri).err := by
  by_cases hu : uri.utf8ByteSize = 0
  · simp [NewJSONBridges, hu]
  · cases ho : w.openuriOpen uri with
    | error e => simp [NewJSONBridges, hu, ho]
    | ok o =>
      cases hr : w.ioutilReadAll o with
      | error e => simp [NewJSONBridges, hu, ho, hr]
      | ok b =>
        cases hd : w.jsonUnmarshal b with
        | error e => simp [NewJSONBridges, hu, ho, hr, hd]
        | ok ds => simp [NewJSONBridges, hu, ho, hr, hd]

/-- C7. Auth resolution at load time: every bridge `NewJSONBridges` returns
holds in its call options the descriptor `bridge.NewAuth` makes of the declared
type and key and of the value the environment variable named `auth.env` has at
loading, the empty string when it is unset; `JSON.Run` hands that stored
descriptor to its outbound call, whatever the inbound context, and leaves it
stored; and the error of `NewJSONBridges` is the same in every process
environment. -/
theorem load_resolves_auth {V E A O S : Type} (w : World V E A O S) (uri : String)
    (j : JSON V A O) (hj : j ∈ (NewJSONBridges w uri).bridges) :
    j.bridge.Opts.Auth =
      w.NewAuth j.bridge.Auth.Type_ j.bridge.Auth.Key (osGetenv w j.bridge.Auth.Env) ∧
    (∀ v, w.environ j.bridge.Auth.Env = some v →
      j.bridge.Opts.Auth = w.NewAuth j.bridge.Auth.Type_ j.bridge.Auth.Key v) ∧
    (w.environ j.bridge.Auth.Env = none →
      j.bridge.Opts.Auth = w.NewAuth j.bridge.Auth.Type_ j.bridge.Auth.Key "") ∧
    (∀ (fmtOther : V → String) (h : Helper V E A O),
      (j.Run fmtOther h).calls.map (fun c => c.opts.Auth) = [j.bridge.Opts.Auth] ∧
      (j.Run fmtOther h).ja.bridge.Opts.Auth = j.bridge.Opts.Auth) ∧
    (∀ env2 : String → Option String,
      (NewJSONBridges { w with environ := env2 } uri).err = (NewJSONBridges w uri).err) := by
  have hauth : j.bridge.Opts.Auth =
      w.NewAuth j.bridge.Auth.Type_ j.bridge.Auth.Key (osGetenv w j.bridge.Auth.Env) := by
    rcases load_bridges_cases w uri with hnil | ⟨ds, hds⟩
    · rw [hnil] at hj
      cases hj
    · rw [hds] at hj
      obtain ⟨a, -, rfl⟩ := List.mem_map.mp hj
      rfl
  refine ⟨hauth, ?_, ?_, fun _ _ => ⟨rfl, rfl⟩, load_err_environ w uri⟩
  · intro v hv
    rw [hauth, osGetenv, hv]
    rfl
  · intro hv
    rw [hauth, osGetenv, hv]
    rfl

/-- C7, witness: with `auth.env = X` and `X` set to `secret` the loaded bridge
holds the descriptor with value `secret`; with `auth.env` naming an unset
variable it holds the descriptor with the empty value, and loading succeeds. -/
theorem load_resolves_auth_witness :
    exLoaded ∈ (NewJSONBridges (exWorld [exBridge, exTwin]) "bridges.json").bridges ∧
    exLoaded.bridge.Opts.Auth =
      (exWorld [exBridge, exTwin]).NewAuth "header" "X-Key" "secret" ∧
    (NewJSONBridges (exWorld [exBridge, exTwin]) "bridges.json").bridges.map
      (fun j => j.bridge.Opts.Auth) =
      [some { authType := "header", key := "X-Key", value := "secret" },
       some { authType := "param", key := "token", value := "" }] ∧
    (NewJSONBridges (exWorld [exBridge, exTwin]) "bridges.json").err = none :=
  ⟨by decide,
   (load_resolves_auth (exWorld [exBridge, exTwin]) "bridges.json" exLoaded (by decide)).2.1
     "secret" rfl,
   by decide, by decide⟩

/-- C9. Load failures propagate and yield no bridges: for a URI that is not
empty, a failing open, a failing read after a successful open, and a failing
parse after both succeeded each make `NewJSONBridges` return no bridges and the
error of that step, with no later step taken; and every error it returns is
the error of one of these three steps. -/
theorem load_failure_propagates {V E A O S : Type} (w : World V E A O S) (uri : String)
    (huri : uri ≠ "") :
    (∀ e, w.openuriOpen uri = .error e →
      (NewJSONBridges w uri).bridges = [] ∧ (NewJSONBridges w uri).err = some e ∧
      (NewJSONBridges w uri).steps = [Step.openURI uri]) ∧
    (∀ o e, w.openuriOpen uri = .ok o → w.ioutilReadAll o = .error e →
      (NewJSONBridges w uri).bridges = [] ∧ (NewJSONBridges w uri).err = some e ∧
      (NewJSONBridges w uri).steps = [Step.openURI uri, Step.readAll]) ∧
    (∀ o b e, w.openuriOpen uri = .ok o → w.ioutilReadAll o = .ok b →
      w.jsonUnmarshal b = .error e →
      (NewJSONBridges w uri).bridges = [] ∧ (NewJSONBridges w uri).err = some e ∧
      (NewJSONBridges w uri).steps = [Step.openURI uri, Step.readAll, Step.unmarshal]) ∧
    (∀ e, (NewJSONBridges w uri).err = some e →
      w.openuriOpen uri = .error e ∨
      (∃ o, w.openuriOpen uri = .ok o ∧ w.ioutilReadAll o = .error e) ∨
      (∃ o b, w.openuriOpen uri = .ok o ∧ w.ioutilReadAll o = .ok b ∧
        w.jsonUnmarshal b = .error e)) := by
  have hb : ¬ uri.utf8ByteSize = 0 := fun hz => huri ((utf8ByteSize_eq_zero_iff _).mp hz)
  refine ⟨?_, ?_, ?_, ?_⟩
  · intro e ho
    simp [NewJSONBridges, hb, ho]
  · intro o e ho hr
    simp [NewJSONBridges, hb, ho, hr]
  · intro o b e ho hr hd
    simp [NewJSONBridges, hb, ho, hr, hd]
  · intro e herr
    cases ho : w.openuriOpen uri with
    | error e1 =>
      simp only [NewJSONBridges, if_neg hb, ho, Option.some.injEq] at herr
      exact Or.inl (by rw [herr])
    | ok o =>
      cases hr : w.ioutilReadAll o with
      | error e1 =>
        simp only [NewJSONBridges, if_neg hb, ho, hr, Option.some.injEq] at herr
        exact Or.inr (Or.inl ⟨o, rfl, by rw [hr, herr]⟩)
      | ok b =>
        cases hd : w.jsonUnmarshal b with
        | error e1 =>
          simp only [NewJSONBridges, if_neg hb, ho, hr, hd, Option.some.injEq] at herr
          exact Or.inr (Or.inr ⟨o, b, rfl, hr, by rw [hd, herr]⟩)
        | ok ds =>
          rw [(load_of_decoded w uri o b ds huri ho hr hd).2.1] at herr
          cases herr

/-- C9, witness: a path that does not open gives the error of the open and
nothing was read; a source that cannot be read gives the error of the read and
nothing was parsed; a document that does not parse gives the error of the parse. -/
theorem load_failure_propagates_witness :
    "missing.json" ≠ "" ∧ "unreadable.json" ≠ "" ∧ "broken.json" ≠ "" ∧
    ((NewJSONBridges (exWorld [exBridge]) "missing.json").bridges = [] ∧
      (NewJSONBridges (exWorld [exBridge]) "missing.json").err =
        some (GoError.foreign "no such file") ∧
      (NewJSONBridges (exWorld [exBridge]) "missing.json").steps =
        [Step.openURI "missing.json"]) ∧
    ((NewJSONBridges (exWorld [exBridge]) "unreadable.json").bridges = [] ∧
      (NewJSONBridges (exWorld [exBridge]) "unreadable.json").err =
        some (GoError.foreign "read failed") ∧
      (NewJSONBridges (exWorld [exBridge]) "unreadable.json").steps =
        [Step.openURI "unreadable.json", Step.readAll]) ∧
    ((NewJSONBridges (exWorld [exBridge]) "broken.json").bridges = [] ∧
      (NewJSONBridges (exWorld [exBridge]) "broken.json").err =
        some (GoError.foreign "unexpected end of JSON input") ∧
      (NewJSONBridges (exWorld [exBridge]) "broken.json").steps =
        [Step.openURI "broken.json", Step.readAll, Step.unmarshal]) :=
  ⟨by decide, by decide, by decide,
   (load_failure_propagates (exWorld [exBridge]) "missing.json" (by decide)).1 _ rfl,
   (load_failure_propagates (exWorld [exBridge]) "unreadable.json" (by decide)).2.1 _ _ rfl rfl,
   (load_failure_propagates (exWorld [exBridge]) "broken.json" (by decide)).2.2.1 _ _ _
     rfl rfl rfl⟩

/-- C10, as stated, fails: a document in which two definitions have the name
`search` loads without error, and both returned bridges report the name
`search`. -/
theorem load_accepts_duplicate_names :
    exBridge.Name = exTwin.Name ∧
    (NewJSONBridges (exWorld [exBridge, exTwin]) "bridges.json").err = none ∧
    (NewJSONBridges (exWorld [exBridge, exTwin]) "bridges.json").bridges.map
      (fun j => j.Opts.Name) = ["search", "search"] ∧
    ¬ ((NewJSONBridges (exWorld [exBridge, exTwin]) "bridges.json").bridges.map
      (fun j => j.Opts.Name)).Nodup := by
  refine ⟨by decide, by decide, by decide, by decide⟩

/-- C10, amended. `NewJSONBridges` does not look at names: when the URI is not
empty and its source opens, reads and decodes to `ds`, it returns no error and
bridges whose `Opts().Name` are the names of `ds` in order, so the names of the
returned bridges are pairwise distinct exactly when the declared names are. -/
theorem load_keeps_declared_names {V E A O S : Type} (w : World V E A O S) (uri : String)
    (o : S) (b : List UInt8) (ds : List (Bridge V A O)) (huri : uri ≠ "")
    (ho : w.openuriOpen uri = .ok o) (hr : w.ioutilReadAll o = .ok b)
    (hd : w.jsonUnmarshal b = .ok ds) :
    (NewJSONBridges w uri).err = none ∧
    (NewJSONBridges w uri).bridges.map (fun j => j.Opts.Name) = ds.map (fun d => d.Name) ∧
    (((NewJSONBridges w uri).bridges.map (fun j => j.Opts.Name)).Nodup ↔
      (ds.map (fun d => d.Name)).Nodup) := by
  obtain ⟨hbs, herr, -⟩ := load_of_decoded w uri o b ds huri ho hr hd
  have hnames : (NewJSONBridges w uri).bridges.map (fun j => j.Opts.Name) =
      ds.map (fun d => d.Name) := by
    rw [hbs, List.map_map]
    rfl
  exact ⟨herr, hnames, by rw [hnames]⟩

/-- C10, amended, witness: a document with the names `search` and `other` gives
bridges reporting `search` and `other`. -/
theorem load_keeps_declared_names_witness :
    "bridges.json" ≠ "" ∧
    (exWorld [exBridge, exOther]).openuriOpen "bridges.json" = .ok "bridges.json" ∧
    (exWorld [exBridge, exOther]).ioutilReadAll "bridges.json" = .ok [91, 93] ∧
    (exWorld [exBridge, exOther]).jsonUnmarshal [91, 93] = .ok [exBridge, exOther] ∧
    (NewJSONBridges (exWorld [exBridge, exOther]) "bridges.json").err = none ∧
    (NewJSONBridges (exWorld [exBridge, exOther]) "bridges.json").bridges.map
      (fun j => j.Opts.Name) = ["search", "other"] :=
  ⟨by decide, rfl, rfl, rfl,
   (load_keeps_declared_names (exWorld [exBridge, exOther]) "bridges.json" "bridges.json"
      [91, 93] [exBridge, exOther] (by decide) rfl rfl rfl).1,
   (load_keeps_declared_names (exWorld [exBridge, exOther]) "bridges.json" "bridges.json"
      [91, 93] [exBridge, exOther] (by decide) rfl rfl rfl).2.1⟩

end Bridges
